import Mathlib

/-!
# Verification of `src/pack_index/network.rs` (cmsis-pack-manager)

A shallow embedding of the network/resolution pipeline of the `update`
operation: the redirect-following fetch (`Redirect`), the two index-expansion
stages (`download_vidx_list`, `flatmap_pdscs`), the leaf download stage
(`make_uri_fd_pair`, `download_pdscs`) and the orchestrator (`update_inner`).

Modelling conventions:
* hyper's `Uri` is modelled at the interface this module uses: a parse that
  fails on the empty string, an optional authority component, and `Display`
  returning the original string;
* the asynchronous streams are modelled as sequences of `Except` items,
  processed in submission order (the `FuturesUnordered` completion order is
  abstracted; the per-item data flow and error flow follow the source);
* possible non-termination of a redirect loop is modelled by fuel: a fuel-out
  result is `none` ("still running"), distinct from every error;
* the filesystem is the set of existing destination paths (file contents are
  irrelevant to every property considered here);
* the typed index documents `Vidx`/`Pidx`/`PdscRef` and the storage resolver
  `place_data_file` live outside `src/` and are modelled from the spec where
  noted.
-/

namespace Network

/-- Transport-level error of the hyper client (`hyper::Error`, non-URI part). -/
structure HttpError where
  msg : String
deriving DecidableEq, Repr

/-- `hyper::error::UriError`: failure to parse a string as a `Uri`. -/
structure UriError where
  msg : String
deriving DecidableEq, Repr

/-- `minidom`-level document parse failure (surfaced by `Vidx::from_string`). -/
structure ParseError where
  msg : String
deriving DecidableEq, Repr

/-- `config::Error`: failure of the storage-path resolver `place_data_file`. -/
structure StorageError where
  msg : String
deriving DecidableEq, Repr

/-- Model of hyper's `Uri` at the interface used by `network.rs`: the original
string together with its optional authority component. -/
structure Uri where
  authority : Option String
  raw : String
deriving DecidableEq, Repr

/-- Helper for the URI model: the characters following the first `"://"`. -/
def afterScheme : List Char → Option (List Char)
  | ':' :: '/' :: '/' :: rest => some rest
  | _ :: rest => afterScheme rest
  | [] => none

/-- Model of the external hyper URI parser at the interface used by this
module: the empty string and strings with an invalid character (modelled by
the space) are rejected; a string starting with `/` is an origin-form
reference with no authority; otherwise the authority is the host part (after
a scheme separator `"://"` when present, else the leading segment). -/
def Uri.parse (s : String) : Except UriError Uri :=
  match s.data with
  | [] => .error ⟨"empty Uri"⟩
  | l =>
    if l.contains ' ' then .error ⟨"invalid Uri character"⟩
    else
      match l with
      | '/' :: _ => .ok ⟨none, s⟩
      | l' =>
        match afterScheme l' with
        | some rest => .ok ⟨some ⟨rest.takeWhile (fun c => c ≠ '/')⟩, s⟩
        | none => .ok ⟨some ⟨l'.takeWhile (fun c => c ≠ '/')⟩, s⟩

deriving instance DecidableEq for Except

/-- A hyper `Response` at the interface used here: status code, optional
`Location` header, and the concatenated body bytes. -/
structure Response where
  status : Nat
  location : Option String
  body : String
deriving DecidableEq, Repr

/-- The five statuses treated as redirects in `Redirect::poll`
(`MovedPermanently | Found | SeeOther | TemporaryRedirect | PermanentRedirect`). -/
def isRedirect (s : Nat) : Bool :=
  s == 301 || s == 302 || s == 303 || s == 307 || s == 308

/-- Error type of the `Redirect` future (`hyper::Error`, which absorbs
`UriError` through `From`, as used by the `?` on `.parse()`). -/
inductive HErr
  | http (e : HttpError)
  | uri (e : UriError)
deriving DecidableEq, Repr

/-- The resolution step of `Redirect::poll`: if the freshly parsed redirect
target has no authority and the previous URI has one, re-parse
`format!("{}{}", authority, uri)`; otherwise keep the target unchanged. -/
def resolveAgainst (old u : Uri) : Except UriError Uri :=
  if u.authority.isNone then
    match old.authority with
    | some a => Uri.parse (a ++ u.raw)
    | none => .ok u
  else .ok u

/-- `Redirect::poll` consults `self.urls.last()` for resolution; an empty
visited list leaves the target unchanged (the `if let Some(old_uri)` guard). -/
def resolveAgainstLast (urls : List Uri) (u : Uri) : Except UriError Uri :=
  match urls.getLast? with
  | some old => resolveAgainst old u
  | none => .ok u

/-- The loop of `Redirect::poll` over a deterministic network `net`, with
fuel bounding the number of redirect hops followed. State: `cur` is the URI of
the request in flight, `urls` the visited list (every element has had a GET
issued for it). Returns `none` when fuel runs out (the unbounded source loop
is still running), otherwise the future's outcome together with the final
visited list.

A missing `Location` header is replaced by `Location::new("")`
(`unwrap_or`), whose parse fails; parse failures escape via `?` as the
future's error. -/
def redirectSteps (net : Uri → Except HttpError Response) :
    Nat → Uri → List Uri → Option (Except HErr Response × List Uri)
  | fuel, cur, urls =>
    match net cur with
    | .error e => some (.error (.http e), urls)
    | .ok res =>
      if isRedirect res.status then
        match Uri.parse ((res.location.getD "")) with
        | .error e => some (.error (.uri e), urls)
        | .ok v =>
          match resolveAgainstLast urls v with
          | .error e => some (.error (.uri e), urls)
          | .ok u =>
            match fuel with
            | 0 => none
            | fuel' + 1 => redirectSteps net fuel' u (urls ++ [u])
      else some (.ok res, urls)

/-- `Redirect::new(client, uri)` issues a GET for `uri` and starts the poll
loop with `urls = vec![uri]`. -/
def redirectFetch (net : Uri → Except HttpError Response) (fuel : Nat) (u : Uri) :
    Option (Except HErr Response × List Uri) :=
  redirectSteps net fuel u [u]

/-- `chainOk net u hops r`: under network `net`, starting at `u`, the
responses form a redirect chain visiting `hops` in order (each hop a redirect
status whose `Location` parses and resolves to the next URI) and ending in the
non-redirect terminal response `r`. -/
def chainOk (net : Uri → Except HttpError Response) (u : Uri) :
    List Uri → Response → Bool
  | [], r =>
    (match net u with
     | .ok res => decide (res = r)
     | .error _ => false) && !isRedirect r.status
  | u' :: rest, r =>
    match net u with
    | .error _ => false
    | .ok res =>
      isRedirect res.status &&
      (match Uri.parse ((res.location.getD "")) with
       | .error _ => false
       | .ok v =>
         match resolveAgainst u v with
         | .ok w => decide (w = u')
         | .error _ => false) &&
      chainOk net u' rest r

/-- Seed URI of the concrete two-hop redirect scenario. -/
def u0W : Uri := ⟨some "a.com", "http://a.com/x"⟩

/-- First redirect target (absolute `Location`, different host). -/
def u1W : Uri := ⟨some "b.com", "http://b.com/y"⟩

/-- Second redirect target, obtained by resolving the relative `Location`
`/z` against the authority of `u1W` (not of the seed `u0W`). -/
def u2W : Uri := ⟨some "b.com", "b.com/z"⟩

/-- Terminal response of the scenario: a 404, returned as success. -/
def termW : Response := ⟨404, none, "not found"⟩

/-- Concrete deterministic network for the two-hop redirect scenario. -/
def netW : Uri → Except HttpError Response := fun u =>
  if u.raw = "http://a.com/x" then .ok ⟨301, some "http://b.com/y", ""⟩
  else if u.raw = "http://b.com/y" then .ok ⟨302, some "/z", ""⟩
  else if u.raw = "b.com/z" then .ok termW
  else .error ⟨"unreachable"⟩

/-- Concrete network for the missing-`Location` scenario: every request
answers 301 with no `Location` header. -/
def netNoLoc : Uri → Except HttpError Response := fun _ => .ok ⟨301, none, ""⟩

end Network

namespace Network

/-! ## The index data model and the pipeline -/

/-- Modelled from the spec: the leaf reference produced by the external
parser (`PdscRef` is declared in the parent module, outside `src/`): source
base URL, vendor, artifact name, and opaque version string. Fields not used
by `network.rs` are elided. -/
structure PdscRef where
  url : String
  vendor : String
  name : String
  version : String
deriving DecidableEq, Repr

/-- Modelled from the spec: a sub-index pointer (`Pidx`, outside `src/`):
base URL and vendor name. -/
structure Pidx where
  url : String
  vendor : String
deriving DecidableEq, Repr

/-- Modelled from the spec: a root or vendor index document (`Vidx`, outside
`src/`): an ordered list of sub-index pointers and an ordered list of leaf
references. -/
structure Vidx where
  vendor_index : List Pidx
  pdsc_index : List PdscRef
deriving DecidableEq, Repr

/-- `static PIDX_SUFFIX: &'static str = ".pidx"`. -/
def PIDX_SUFFIX : String := ".pidx"

/-- The `error_chain!` aggregate error of the module. -/
inductive Err
  | http (e : HttpError)
  | uri (e : UriError)
  | parse (e : ParseError)
  | storage (e : StorageError)
deriving DecidableEq, Repr

/-- The filesystem as the set of existing destination paths. -/
abbrev FS := List String

/-- The external collaborators of the pipeline, and the redirect fuel:
`net` is the deterministic transport, `vidxFromString` models the external
`Vidx::from_string` parser, `place_data_file` is modelled from the spec (the
deterministic, fallible storage-path resolver of `config.pack_store`), and
`openFails`/`writeFails` give the outcome of the create-and-write of a
destination path. -/
structure Env where
  net : Uri → Except HttpError Response
  fuel : Nat
  vidxFromString : String → Except ParseError Vidx
  place_data_file : String → Except StorageError String
  openFails : String → Bool
  writeFails : String → Bool

/-- `Redirect::new(..).map(Response::body).flatten_stream().concat2()` with
request logging: the final response body (or the future's error) together
with the visited URIs, each of which received a GET. -/
def fetchLog (env : Env) (uri : Uri) : Option (Except Err String × List Uri) :=
  match redirectSteps env.net env.fuel uri [uri] with
  | none => none
  | some (.error (.http e), us) => some (.error (.http e), us)
  | some (.error (.uri e), us) => some (.error (.uri e), us)
  | some (.ok res, us) => some (.ok res.body, us)

/-- `fetchLog` without the request log. -/
def fetchBody (env : Env) (uri : Uri) : Option (Except Err String) :=
  (fetchLog env uri).map Prod.fst

/-- `parse_vidx`: parse the concatenated body through the external parser
(the UTF-8-lossy decoding is absorbed into the `String` body model). -/
def parse_vidx (env : Env) (body : String) : Except Err Vidx :=
  match env.vidxFromString body with
  | .error e => .error (.parse e)
  | .ok v => .ok v

/-- `download_vidx_list`: for each seed, parse it as a URI (on failure: log
and drop the seed), fetch it through `Redirect` and parse the body into a
`Vidx`; fetch and parse failures stay in the stream as error items. -/
def download_vidx_list (env : Env) : List String → Option (List (Except Err Vidx))
  | [] => some []
  | s :: rest =>
    match Uri.parse s with
    | .error _ => download_vidx_list env rest
    | .ok uri =>
      match fetchBody env uri with
      | none => none
      | some (.error e) =>
        (download_vidx_list env rest).map (fun l => .error e :: l)
      | some (.ok body) =>
        (download_vidx_list env rest).map (fun l => (parse_vidx env body) :: l)

/-- `stream_pdscs`: parse a sub-index body; a parse failure yields the empty
sequence (`Result::into_iter`), a success yields the `pdsc_index` leaf refs. -/
def stream_pdscs (env : Env) (body : String) : List (Except Err PdscRef) :=
  match parse_vidx env body with
  | .error _ => []
  | .ok v => v.pdsc_index.map Except.ok

/-- The sub-index jobs of `flatmap_pdscs`: for each `Pidx`, build
`url + vendor + PIDX_SUFFIX`, parse it (on failure: log and drop the
pointer), fetch it and expand through `stream_pdscs`; a fetch failure stays
in the stream as an error item. -/
def sub_jobs (env : Env) : List Pidx → Option (List (Except Err PdscRef))
  | [] => some []
  | p :: rest =>
    match Uri.parse (p.url ++ p.vendor ++ PIDX_SUFFIX) with
    | .error _ => sub_jobs env rest
    | .ok uri =>
      match fetchBody env uri with
      | none => none
      | some (.error e) => (sub_jobs env rest).map (fun l => .error e :: l)
      | some (.ok body) =>
        (sub_jobs env rest).map (fun l => stream_pdscs env body ++ l)

/-- `flatmap_pdscs`: the direct leaf refs of the document, chained with the
expansion of its sub-index pointers. -/
def flatmap_pdscs (env : Env) (v : Vidx) : Option (List (Except Err PdscRef)) :=
  (sub_jobs env v.vendor_index).map (fun l => v.pdsc_index.map Except.ok ++ l)

/-- `parsed_vidx.map(|vidx| flatmap_pdscs(vidx, client)).flatten()`: error
items of the vidx stream pass through; each document is expanded in place. -/
def pdsc_stream (env : Env) : List (Except Err Vidx) → Option (List (Except Err PdscRef))
  | [] => some []
  | .error e :: rest => (pdsc_stream env rest).map (fun l => .error e :: l)
  | .ok v :: rest =>
    match flatmap_pdscs env v with
    | none => none
    | some items => (pdsc_stream env rest).map (fun l => items ++ l)

/-- Rust's `url.ends_with('/')`. -/
def endsWithSlash (url : String) : Bool := url.data.getLast? == some '/'

/-- The leaf source URL of `make_uri_fd_pair`:
`format!("{}{}.{}.pdsc", ...)` when the base ends with `/`, else
`format!("{}/{}.{}.pdsc", ...)`. -/
def leafUrlString (url vendor name : String) : String :=
  if endsWithSlash url then url ++ vendor ++ "." ++ name ++ ".pdsc"
  else url ++ "/" ++ vendor ++ "." ++ name ++ ".pdsc"

/-- The destination file name of `make_uri_fd_pair`:
`format!("{}.{}.{}.pdsc", vendor, name, version)`. -/
def pdscFilename (vendor name version : String) : String :=
  vendor ++ "." ++ name ++ "." ++ version ++ ".pdsc"

/-- `make_uri_fd_pair`: parse the leaf source URL, resolve the destination
path, and decide: `Err` on URI or storage failure, `Ok(None)` (skip) when the
destination already exists, else `Ok(Some((uri, url, filename)))`. -/
def make_uri_fd_pair (env : Env) (fs : FS) (r : PdscRef) :
    Except Err (Option (Uri × String × String)) :=
  match Uri.parse (leafUrlString r.url r.vendor r.name) with
  | .error e => .error (.uri e)
  | .ok uri =>
    match env.place_data_file (pdscFilename r.vendor r.name r.version) with
    | .error e => .error (.storage e)
    | .ok filename =>
      if fs.contains filename then .ok none
      else .ok (some (uri, r.url, filename))

/-- One enqueued leaf job of `download_pdscs`: `Redirect`-fetch the source
URI, then open the destination (create) and write the body. Every failure is
caught by the job's `or_else`, logged with the source URL, and converted to
`Ok(None)`; success yields `Some(filename)`. The open creates the file, so a
write failure leaves the path existing. (The source URL argument is used only
for logging and is dropped here.) -/
def leafJob (env : Env) (fs : FS) (uri : Uri) (filename : String) :
    Option (Option String × FS × List Uri) :=
  match fetchLog env uri with
  | none => none
  | some (.error _, us) => some (none, fs, us)
  | some (.ok _, us) =>
    if env.openFails filename then some (none, fs, us)
    else if env.writeFails filename then some (none, filename :: fs, us)
    else some (some filename, filename :: fs, us)

/-- `download_pdscs(..).filter_map(id).collect()` as run by `update_inner`:
process the leaf-ref stream in order, threading the filesystem and logging
every leaf GET; stream error items and `make_uri_fd_pair` errors abort the
collection with that error (`Collect` short-circuits), skips and failed jobs
contribute nothing, successful jobs contribute their path. -/
def run_download_pdscs (env : Env) :
    List (Except Err PdscRef) → FS → Option (Except Err (List String) × FS × List Uri)
  | [], fs => some (.ok [], fs, [])
  | .error e :: _, fs => some (.error e, fs, [])
  | .ok r :: rest, fs =>
    match make_uri_fd_pair env fs r with
    | .error e => some (.error e, fs, [])
    | .ok none => run_download_pdscs env rest fs
    | .ok (some (uri, _, filename)) =>
      match leafJob env fs uri filename with
      | none => none
      | some (res, fs', us) =>
        match run_download_pdscs env rest fs' with
        | none => none
        | some (.error e, fs'', us') => some (.error e, fs'', us ++ us')
        | some (.ok paths, fs'', us') =>
          some (.ok (match res with | some p => p :: paths | none => paths),
            fs'', us ++ us')

/-- `update_inner`: compose the three stages and run the pipeline to
completion, returning the collected newly-written paths (or the first
uncaught error), the final filesystem, and the log of leaf GETs. -/
def update_inner (env : Env) (vidx_list : List String) (fs : FS) :
    Option (Except Err (List String) × FS × List Uri) :=
  match download_vidx_list env vidx_list with
  | none => none
  | some vidxs =>
    match pdsc_stream env vidxs with
    | none => none
    | some pdscs => run_download_pdscs env pdscs fs

/-- `Except.isOkB`: executable success test. -/
def isOkB {ε α : Type} : Except ε α → Bool
  | .ok _ => true
  | .error _ => false

/-- An item of the leaf-ref stream is clean when it is an `Ok` ref whose leaf
URL parses, whose destination path resolves, and whose fetch terminates. -/
def itemClean (env : Env) : Except Err PdscRef → Bool
  | .error _ => false
  | .ok r =>
    match Uri.parse (leafUrlString r.url r.vendor r.name) with
    | .error _ => false
    | .ok uri =>
      isOkB (env.place_data_file (pdscFilename r.vendor r.name r.version)) &&
      (fetchLog env uri).isSome

/-- Concrete environment for witnesses: the two-hop network, a parser that
accepts exactly the canonical document, an always-successful storage resolver,
and never-failing file operations. -/
def envW : Env where
  net := netW
  fuel := 8
  vidxFromString := fun s =>
    if s = "<vidx/>" then .ok ⟨[], []⟩ else .error ⟨"bad document"⟩
  place_data_file := fun n => .ok ("store/" ++ n)
  openFails := fun _ => false
  writeFails := fun _ => false

/-- A leaf ref whose source is reachable under `netLeaf`. -/
def refGood : PdscRef := ⟨"http://good.com", "V", "N", "1"⟩

/-- A leaf ref whose source is unreachable under `netLeaf`. -/
def refBad : PdscRef := ⟨"http://bad.com", "W", "M", "2"⟩

/-- Network for the leaf-stage scenarios: exactly one reachable artifact. -/
def netLeaf : Uri → Except HttpError Response := fun u =>
  if u.raw = "http://good.com/V.N.pdsc" then .ok ⟨200, none, "pdsc body"⟩
  else .error ⟨"connection refused"⟩

/-- Environment for the leaf-stage witnesses. -/
def envLeaf : Env where
  net := netLeaf
  fuel := 4
  vidxFromString := fun _ => .error ⟨"bad document"⟩
  place_data_file := fun n => .ok ("store/" ++ n)
  openFails := fun _ => false
  writeFails := fun _ => false

/-- `envLeaf` with a storage layer whose file opens always fail. -/
def envOpenFail : Env := { envLeaf with openFails := fun _ => true }

/-- `envLeaf` with a storage layer whose writes always fail. -/
def envWriteFail : Env := { envLeaf with writeFails := fun _ => true }

/-- The parsed leaf source URI of `refBad` under the URI model. -/
def uriBad : Uri := ⟨some "bad.com", "http://bad.com/W.M.pdsc"⟩

/-- The parsed leaf source URI of `refGood` under the URI model. -/
def uriGood : Uri := ⟨some "good.com", "http://good.com/V.N.pdsc"⟩

/-- Network and environment mapping every seed to a root document whose body
parses to a root index listing exactly `refGood` (used for the end-to-end
success scenario). -/
def netU : Uri → Except HttpError Response := fun u =>
  if u.raw = "http://seed.com/idx" then .ok ⟨200, none, "<vidx/>"⟩
  else if u.raw = "http://good.com/V.N.pdsc" then .ok ⟨200, none, "pdsc body"⟩
  else .error ⟨"connection refused"⟩

/-- Environment of the end-to-end success scenario: the single seed resolves
to a root index carrying the single direct leaf ref `refGood`. -/
def envU : Env where
  net := netU
  fuel := 4
  vidxFromString := fun s =>
    if s = "<vidx/>" then .ok ⟨[], [refGood]⟩ else .error ⟨"bad document"⟩
  place_data_file := fun n => .ok ("store/" ++ n)
  openFails := fun _ => false
  writeFails := fun _ => false

/-- Modelled from the spec: the deterministic storage-path resolver
`config.pack_store.place_data_file` (declared outside `src/`) places a data
file under the store directory: `<store>/<name>`. -/
def place_data_file_spec (store name : String) : String :=
  store ++ "/" ++ name

/-- The destination path of a leaf ref: the storage resolver applied to
`format!("{}.{}.{}.pdsc", vendor, name, version)` — a function of the
identity triple only. -/
def destPath (store : String) (r : PdscRef) : String :=
  place_data_file_spec store (pdscFilename r.vendor r.name r.version)

/-- Model of the `buffer_unordered` executor of the futures library at the
interface used by `download_pdscs`: a pool of pending jobs (each abstracted
as its remaining number of poll steps) and the list of in-flight jobs. -/
structure BufState where
  pending : List Nat
  inFlight : List Nat
  finished : Nat
deriving DecidableEq, Repr

/-- The refill phase of one `BufferUnordered` poll: while fewer than `lim`
jobs are in flight, spawn the next pending job. -/
def fillAux (lim : Nat) : List Nat → List Nat → List Nat × List Nat
  | [], inFlight => ([], inFlight)
  | j :: rest, inFlight =>
    if inFlight.length < lim then fillAux lim rest (inFlight ++ [j])
    else (j :: rest, inFlight)

/-- One poll of the `buffer_unordered(lim)` stage: refill up to the bound,
then poll every in-flight job once; jobs that complete leave the in-flight
list and are counted as finished. -/
def bufStep (lim : Nat) (s : BufState) : BufState :=
  let p := fillAux lim s.pending s.inFlight
  { pending := p.1
    inFlight := p.2.filterMap (fun k => if k == 0 then none else some (k - 1))
    finished := s.finished + (p.2.filter (fun k => k == 0)).length }

/-- Iterated polling of the buffered stage. -/
def bufRun (lim : Nat) : Nat → BufState → BufState
  | 0, s => s
  | k + 1, s => bufRun lim k (bufStep lim s)

/-- The concurrency bound passed to `buffer_unordered` by `download_pdscs`. -/
def download_concurrency : Nat := 32

end Network

namespace Network

/-! ## Theorems about the redirect fetch -/

/-- Generalized chain lemma: from any state of the poll loop whose visited
list ends in the in-flight URI, a redirect chain of `hops` further hops drives
the loop to the terminal response, appending exactly the hops to the visited
list. -/
theorem redirectSteps_of_chainOk (net : Uri → Except HttpError Response)
    (hops : List Uri) (r : Response) :
    ∀ (fuel : Nat) (u : Uri) (urls : List Uri), urls.getLast? = some u →
      hops.length ≤ fuel → chainOk net u hops r = true →
      redirectSteps net fuel u urls = some (.ok r, urls ++ hops) := by
  induction hops with
  | nil =>
    intro fuel u urls _ _ hchain
    cases hnet : net u with
    | error e => simp [chainOk, hnet] at hchain
    | ok res =>
      simp only [chainOk, hnet, Bool.and_eq_true, decide_eq_true_eq,
        Bool.not_eq_true'] at hchain
      obtain ⟨rfl, hstat⟩ := hchain
      rw [redirectSteps]
      simp [hnet, hstat]
  | cons u' rest ih =>
    intro fuel u urls hlast hfuel hchain
    cases hnet : net u with
    | error e => simp [chainOk, hnet] at hchain
    | ok res =>
      simp only [chainOk, hnet, Bool.and_eq_true] at hchain
      obtain ⟨⟨hstat, hres⟩, hrest⟩ := hchain
      cases hp : Uri.parse ((res.location.getD "")) with
      | error e => simp [hp] at hres
      | ok v =>
        simp only [hp] at hres
        cases hw : resolveAgainst u v with
        | error e => simp [hw] at hres
        | ok w =>
          simp only [hw, decide_eq_true_eq] at hres
          subst hres
          cases fuel with
          | zero => exact absurd hfuel (by simp)
          | succ fuel' =>
            rw [redirectSteps]
            simp only [hnet, hstat, if_true, hp, resolveAgainstLast, hlast, hw]
            rw [ih fuel' w (urls ++ [w]) (List.getLast?_concat _)
              (Nat.le_of_succ_le_succ hfuel) hrest]
            simp

/-- C2: for every redirect chain of length N (each hop a status 301, 302,
303, 307 or 308 with a parseable `Location`) ending in a non-redirect
response, the `Redirect` fetch issues exactly N+1 GET requests (the visited
list, in chain order) and completes with the terminal response unchanged; no
status-code validation is applied to the terminal response, so a 4xx/5xx
terminal response is returned as success. -/
theorem redirect_follows_chain (net : Uri → Except HttpError Response)
    (fuel : Nat) (u₀ : Uri) (hops : List Uri) (r : Response)
    (hchain : chainOk net u₀ hops r = true) (hfuel : hops.length ≤ fuel) :
    redirectFetch net fuel u₀ = some (.ok r, u₀ :: hops) ∧
      (u₀ :: hops).length = hops.length + 1 := by
  refine ⟨?_, by simp⟩
  rw [redirectFetch, redirectSteps_of_chainOk net hops r fuel u₀ [u₀] rfl hfuel hchain]
  simp

/-- Witness for C2: a concrete chain of length 2 ending in a 404, followed
with 3 requests, the 404 returned as success. -/
theorem redirect_follows_chain_witness :
    chainOk netW u0W [u1W, u2W] termW = true ∧ [u1W, u2W].length ≤ 2 ∧
      (redirectFetch netW 2 u0W = some (.ok termW, u0W :: [u1W, u2W]) ∧
        (u0W :: [u1W, u2W]).length = [u1W, u2W].length + 1) :=
  ⟨by decide, by decide,
    redirect_follows_chain netW 2 u0W [u1W, u2W] termW (by decide) (by decide)⟩

/-- C3: in every hop of a chain, a redirect whose `Location` parses to a URI
without an authority component is resolved against the authority of the last
entry of the visited-URI list (the immediately preceding requested URI): the
loop continues exactly as a fresh loop at the resolved URI with that URI
appended to the visited list. -/
theorem redirect_resolves_relative_against_last (net : Uri → Except HttpError Response)
    (fuel : Nat) (urls : List Uri) (cur : Uri) (res : Response) (v : Uri)
    (a : String) (u' : Uri)
    (hlast : urls.getLast? = some cur)
    (hnet : net cur = .ok res) (hred : isRedirect res.status = true)
    (hparse : Uri.parse ((res.location.getD "")) = .ok v)
    (hrel : v.authority = none) (hauth : cur.authority = some a)
    (hres : Uri.parse (a ++ v.raw) = .ok u') :
    redirectSteps net (fuel + 1) cur urls = redirectSteps net fuel u' (urls ++ [u']) := by
  rw [redirectSteps]
  simp [hnet, hred, hparse, resolveAgainstLast, hlast, resolveAgainst, hrel, hauth, hres]

/-- Witness for C3: at the second hop of the concrete scenario the relative
`Location` `/z` is resolved against `b.com` (the authority of `u1W`, the
immediately preceding request), not against the seed's `a.com`. -/
theorem redirect_resolves_relative_against_last_witness :
    redirectSteps netW (5 + 1) u1W [u0W, u1W] =
      redirectSteps netW 5 u2W ([u0W, u1W] ++ [u2W]) :=
  redirect_resolves_relative_against_last netW 5 [u0W, u1W] u1W
    ⟨302, some "/z", ""⟩ ⟨none, "/z"⟩ "b.com" u2W
    (by decide) (by decide) (by decide) (by decide) (by decide) (by decide) (by decide)

/-- C10: a redirect-status response carrying no `Location` header substitutes
the empty string (`unwrap_or(&Location::new(""))`); its URI parse fails, and
the fetch completes with that URI-parse error having issued no request beyond
the one already in flight (the visited list stays `[u]`). The total `match`
shows no panic occurs. -/
theorem redirect_missing_location (net : Uri → Except HttpError Response)
    (fuel : Nat) (u : Uri) (res : Response)
    (hnet : net u = .ok res) (hred : isRedirect res.status = true)
    (hloc : res.location = none) :
    redirectFetch net fuel u = some (.error (.uri ⟨"empty Uri"⟩), [u]) := by
  rw [redirectFetch, redirectSteps]
  simp [hnet, hred, hloc, Uri.parse]

/-- Witness for C10: the fetch at `u0W` completes with the URI-parse error
after exactly the one initial request. -/
theorem redirect_missing_location_witness :
    redirectFetch netNoLoc 7 u0W = some (.error (.uri ⟨"empty Uri"⟩), [u0W]) :=
  redirect_missing_location netNoLoc 7 u0W ⟨301, none, ""⟩ rfl (by decide) rfl

/-! ## Basic lemmas about the pipeline pieces -/

/-- A successfully parsed URI displays as the parsed string. -/
theorem Uri.raw_of_parse {s : String} {u : Uri} (h : Uri.parse s = .ok u) :
    u.raw = s := by
  unfold Uri.parse at h
  split at h
  · exact absurd h (by simp)
  · split at h
    · exact absurd h (by simp)
    · split at h
      · injection h with h'; subst h'; rfl
      · split at h <;> (injection h with h'; subst h'; rfl)

/-- Unfolding of `make_uri_fd_pair` at a `Fetch` decision. -/
theorem make_uri_fd_pair_eq_some {env : Env} {fs : FS} {r : PdscRef}
    {uri : Uri} {url fn : String}
    (h : make_uri_fd_pair env fs r = .ok (some (uri, url, fn))) :
    uri.raw = leafUrlString r.url r.vendor r.name ∧ url = r.url ∧
      env.place_data_file (pdscFilename r.vendor r.name r.version) = .ok fn ∧
      fn ∉ fs := by
  unfold make_uri_fd_pair at h
  cases hp : Uri.parse (leafUrlString r.url r.vendor r.name) with
  | error e => simp only [hp] at h; exact Except.noConfusion h
  | ok uri' =>
    simp only [hp] at h
    cases hf : env.place_data_file (pdscFilename r.vendor r.name r.version) with
    | error e => simp only [hf] at h; exact Except.noConfusion h
    | ok fn' =>
      simp only [hf] at h
      by_cases hcon : fn' ∈ fs
      · simp [hcon] at h
      · simp [hcon] at h
        obtain ⟨h₁, h₂, h₃⟩ := h
        subst h₁; subst h₂; subst h₃
        exact ⟨Uri.raw_of_parse hp, rfl, rfl, hcon⟩

/-- A leaf job whose fetch terminates terminates. -/
theorem leafJob_isSome {env : Env} {fs : FS} {uri : Uri} {fn : String}
    (h : (fetchLog env uri).isSome = true) : (leafJob env fs uri fn).isSome = true := by
  unfold leafJob
  cases hf : fetchLog env uri with
  | none => rw [hf] at h; simp at h
  | some x =>
    obtain ⟨q, us⟩ := x
    cases q with
    | error e => simp
    | ok body =>
      by_cases ho : env.openFails fn <;> by_cases hw : env.writeFails fn <;>
        simp [ho, hw]

/-- The filesystem after a leaf job is the old one, possibly extended with the
job's destination path. -/
theorem leafJob_fs {env : Env} {fs fs' : FS} {uri : Uri} {fn : String}
    {res : Option String} {us : List Uri}
    (h : leafJob env fs uri fn = some (res, fs', us)) :
    fs' = fs ∨ fs' = fn :: fs := by
  unfold leafJob at h
  cases hf : fetchLog env uri with
  | none => rw [hf] at h; simp at h
  | some x =>
    obtain ⟨q, us'⟩ := x
    rw [hf] at h
    cases q with
    | error e => injection h with h'; injection h' with h₁ h₂; injection h₂ with h₃ _; exact .inl h₃.symm
    | ok body =>
      by_cases ho : env.openFails fn
      · simp only [ho, if_pos] at h
        injection h with h'; injection h' with h₁ h₂; injection h₂ with h₃ _
        exact .inl h₃.symm
      · by_cases hw : env.writeFails fn <;> simp only [ho, hw, if_pos, if_neg, Bool.false_eq_true, not_false_eq_true] at h <;>
          (injection h with h'; injection h' with h₁ h₂; injection h₂ with h₃ _)
        · exact .inr h₃.symm
        · exact .inr h₃.symm

/-- A successful leaf-job result is the job's own destination path, newly
added to the filesystem. -/
theorem leafJob_res {env : Env} {fs fs' : FS} {uri : Uri} {fn p : String}
    {us : List Uri}
    (h : leafJob env fs uri fn = some (some p, fs', us)) :
    p = fn ∧ fs' = fn :: fs := by
  unfold leafJob at h
  cases hf : fetchLog env uri with
  | none => rw [hf] at h; simp at h
  | some x =>
    obtain ⟨q, us'⟩ := x
    rw [hf] at h
    cases q with
    | error e => simp at h
    | ok body =>
      by_cases ho : env.openFails fn
      · simp [ho] at h
      · by_cases hw : env.writeFails fn
        · simp [ho, hw] at h
        · simp only [ho, hw, Bool.false_eq_true, if_neg, not_false_eq_true] at h
          injection h with h'; injection h' with h₁ h₂; injection h₂ with h₃ _
          injection h₁ with h₁
          exact ⟨h₁.symm, h₃.symm⟩

/-- An unparsable seed is dropped by `download_vidx_list` (the `Err(e)` arm
only logs): the produced stream is the one of the list without that seed. -/
theorem download_vidx_list_drop_bad (env : Env) (l₂ : List String) {bad : String}
    {e : UriError} (hbad : Uri.parse bad = .error e) :
    ∀ l₁ : List String, download_vidx_list env (l₁ ++ bad :: l₂) =
      download_vidx_list env (l₁ ++ l₂) := by
  intro l₁
  induction l₁ with
  | nil => simp only [List.nil_append, download_vidx_list, hbad]
  | cons s l₁ ih => simp only [List.cons_append, download_vidx_list, List.append_eq, ih]

/-- An unparsable sub-index URL is dropped by `flatmap_pdscs` (the `Err(e)`
arm only logs): the expansion is the one of the pointer list without it. -/
theorem sub_jobs_drop_bad (env : Env) (l₂ : List Pidx) {p : Pidx}
    {e : UriError} (hbad : Uri.parse (p.url ++ p.vendor ++ PIDX_SUFFIX) = .error e) :
    ∀ l₁ : List Pidx, sub_jobs env (l₁ ++ p :: l₂) = sub_jobs env (l₁ ++ l₂) := by
  intro l₁
  induction l₁ with
  | nil => simp only [List.nil_append, sub_jobs, hbad]
  | cons q l₁ ih => simp only [List.cons_append, sub_jobs, List.append_eq, ih]

/-- A sub-index body that fails to parse contributes no items and no error
(`Result::into_iter` of `stream_pdscs`). -/
theorem stream_pdscs_nil_of_parse_error {env : Env} {body : String} {e : Err}
    (h : parse_vidx env body = .error e) : stream_pdscs env body = [] := by
  simp [stream_pdscs, h]

/-- C7: an unparsable seed contributes nothing and causes no abort: `update`
behaves exactly as if the seed were absent. -/
theorem update_isolates_unparsable_seed (env : Env) (fs : FS)
    (l₁ l₂ : List String) (bad : String) (e : UriError)
    (hbad : Uri.parse bad = .error e) :
    update_inner env (l₁ ++ bad :: l₂) fs = update_inner env (l₁ ++ l₂) fs := by
  unfold update_inner
  rw [download_vidx_list_drop_bad env l₂ hbad l₁]

/-- Witness for C7: a seed with an invalid character among one valid seed. -/
theorem update_isolates_unparsable_seed_witness :
    update_inner envW (["http://a.com/x"] ++ "bad seed" :: []) [] =
      update_inner envW (["http://a.com/x"] ++ []) [] :=
  update_isolates_unparsable_seed envW [] ["http://a.com/x"] [] "bad seed"
    ⟨"invalid Uri character"⟩ (by decide)

/-- A leaf job that completes with an absent result contributes nothing: the
collection continues on the remaining refs from the job's filesystem, with
only the job's requests prepended to the log. -/
theorem run_download_pdscs_job_none {env : Env} {fs fs₂ : FS} {r : PdscRef}
    {uri : Uri} {url fn : String} {us : List Uri}
    (rest : List (Except Err PdscRef))
    (hmk : make_uri_fd_pair env fs r = .ok (some (uri, url, fn)))
    (hjob : leafJob env fs uri fn = some (none, fs₂, us)) :
    run_download_pdscs env (.ok r :: rest) fs =
      (run_download_pdscs env rest fs₂).map (fun x => (x.1, x.2.1, us ++ x.2.2)) := by
  simp only [run_download_pdscs, hmk, hjob]
  cases hrest : run_download_pdscs env rest fs₂ with
  | none => rfl
  | some x =>
    obtain ⟨q, fs'', us'⟩ := x
    cases q <;> rfl

/-- Counterexample to C1: under `envW` the single seed resolves (through a
redirect chain) to a body that fails document parsing; the resulting stream
error propagates through `flatten` and `collect`, and `update` returns that
error — not a setup error. -/
theorem update_fails_on_root_parse_error :
    update_inner envW ["http://a.com/x"] [] =
      some (.error (.parse ⟨"bad document"⟩), [], []) := by decide

/-- C1 (amended): the error kinds recovered at the stage that produced them
are exactly: seed URI-parse failures (seed dropped), sub-index URL-parse
failures (pointer dropped), sub-index document-parse failures (contribute
nothing), and failures inside an enqueued leaf job (absent result). Root
fetch/parse errors, sub-index transport errors, and leaf URI-parse/storage
errors instead remain in the stream and make `update` return `Err`. -/
theorem update_recovers_dropped_and_leaf_errors :
    (∀ (env : Env) (fs : FS) (l₁ l₂ : List String) (bad : String) (e : UriError),
        Uri.parse bad = .error e →
        update_inner env (l₁ ++ bad :: l₂) fs = update_inner env (l₁ ++ l₂) fs) ∧
    (∀ (env : Env) (l₁ l₂ : List Pidx) (p : Pidx) (e : UriError),
        Uri.parse (p.url ++ p.vendor ++ PIDX_SUFFIX) = .error e →
        sub_jobs env (l₁ ++ p :: l₂) = sub_jobs env (l₁ ++ l₂)) ∧
    (∀ (env : Env) (body : String) (e : Err),
        parse_vidx env body = .error e → stream_pdscs env body = []) ∧
    (∀ (env : Env) (fs fs₂ : FS) (r : PdscRef) (uri : Uri) (url fn : String)
        (us : List Uri) (rest : List (Except Err PdscRef)),
        make_uri_fd_pair env fs r = .ok (some (uri, url, fn)) →
        leafJob env fs uri fn = some (none, fs₂, us) →
        run_download_pdscs env (.ok r :: rest) fs =
          (run_download_pdscs env rest fs₂).map (fun x => (x.1, x.2.1, us ++ x.2.2))) := by
  refine ⟨?_, ?_, ?_, ?_⟩
  · intro env fs l₁ l₂ bad e hbad
    unfold update_inner
    rw [download_vidx_list_drop_bad env l₂ hbad l₁]
  · intro env l₁ l₂ p e hbad
    exact sub_jobs_drop_bad env l₂ hbad l₁
  · intro env body e h
    exact stream_pdscs_nil_of_parse_error h
  · intro env fs fs₂ r uri url fn us rest hmk hjob
    exact run_download_pdscs_job_none rest hmk hjob

/-- Witness for the amended C1: each recovered kind exercised at a concrete
input (a malformed seed, a sub-index pointer whose URL has an invalid
character, a body the parser rejects, and a leaf whose transport fails while
its sibling still downloads). -/
theorem update_recovers_dropped_and_leaf_errors_witness :
    (update_inner envW ([] ++ "" :: ["http://a.com/x"]) [] =
      update_inner envW ([] ++ ["http://a.com/x"]) []) ∧
    (sub_jobs envW ([] ++ (⟨"bad url/", "x"⟩ : Pidx) :: []) = sub_jobs envW ([] ++ [])) ∧
    (stream_pdscs envW "x" = []) ∧
    (run_download_pdscs envLeaf (.ok refBad :: [.ok refGood]) [] =
      (run_download_pdscs envLeaf [.ok refGood] []).map
        (fun x => (x.1, x.2.1, [uriBad] ++ x.2.2))) :=
  ⟨update_recovers_dropped_and_leaf_errors.1 envW [] [] ["http://a.com/x"] ""
      ⟨"empty Uri"⟩ (by decide),
    update_recovers_dropped_and_leaf_errors.2.1 envW [] [] ⟨"bad url/", "x"⟩
      ⟨"invalid Uri character"⟩ (by decide),
    update_recovers_dropped_and_leaf_errors.2.2.1 envW "x"
      (.parse ⟨"bad document"⟩) (by decide),
    update_recovers_dropped_and_leaf_errors.2.2.2 envLeaf [] []
      refBad uriBad "http://bad.com" "store/W.M.2.pdsc" [uriBad] [.ok refGood]
      (by decide) (by decide)⟩

/-- On a stream of clean items (each an `Ok` ref whose leaf URL parses, whose
destination resolves, and whose fetch terminates) the collection always
completes without error, whatever the outcomes of the jobs. -/
theorem run_download_pdscs_ok {env : Env} :
    ∀ (items : List (Except Err PdscRef)), items.all (itemClean env) = true →
      ∀ fs : FS, ∃ ps fs' us, run_download_pdscs env items fs = some (.ok ps, fs', us) := by
  intro items
  induction items with
  | nil => exact fun _ fs => ⟨[], fs, [], rfl⟩
  | cons x items ih =>
    intro hall fs
    simp only [List.all_cons, Bool.and_eq_true] at hall
    obtain ⟨hx, hrest⟩ := hall
    cases x with
    | error e => simp [itemClean] at hx
    | ok r =>
      simp only [itemClean] at hx
      cases hp : Uri.parse (leafUrlString r.url r.vendor r.name) with
      | error e => simp only [hp] at hx; simp at hx
      | ok uri =>
        simp only [hp, Bool.and_eq_true] at hx
        obtain ⟨hpdf, hfetch⟩ := hx
        cases hf : env.place_data_file (pdscFilename r.vendor r.name r.version) with
        | error e => rw [hf] at hpdf; simp [isOkB] at hpdf
        | ok fn =>
          by_cases hcon : fn ∈ fs
          · obtain ⟨ps, fs', us, hrun⟩ := ih hrest fs
            refine ⟨ps, fs', us, ?_⟩
            simp only [run_download_pdscs, make_uri_fd_pair, hp, hf]
            simp [hcon, hrun]
          · have hjs := @leafJob_isSome env fs uri fn hfetch
            cases hjob : leafJob env fs uri fn with
            | none => rw [hjob] at hjs; simp at hjs
            | some y =>
              obtain ⟨res, fs₂, us₀⟩ := y
              obtain ⟨ps, fs', us, hrun⟩ := ih hrest fs₂
              cases res with
              | none =>
                refine ⟨ps, fs', us₀ ++ us, ?_⟩
                simp only [run_download_pdscs, make_uri_fd_pair, hp, hf]
                simp [hcon, hjob, hrun]
              | some p =>
                refine ⟨p :: ps, fs', us₀ ++ us, ?_⟩
                simp only [run_download_pdscs, make_uri_fd_pair, hp, hf]
                simp [hcon, hjob, hrun]

/-- C6: every failure inside an enqueued leaf job — transport error during
the fetch, file-open error, or write error — is converted by the job's
`or_else` into an absent result for that item only: the item contributes
`none`, the collection continues on the siblings unchanged, and a stream of
clean items always collects without error whatever the job outcomes. -/
theorem leaf_job_failures_isolated :
    (∀ (env : Env) (fs : FS) (uri : Uri) (fn : String) (e : Err) (us : List Uri),
        fetchLog env uri = some (.error e, us) →
        leafJob env fs uri fn = some (none, fs, us)) ∧
    (∀ (env : Env) (fs : FS) (uri : Uri) (fn body : String) (us : List Uri),
        fetchLog env uri = some (.ok body, us) → env.openFails fn = true →
        leafJob env fs uri fn = some (none, fs, us)) ∧
    (∀ (env : Env) (fs : FS) (uri : Uri) (fn body : String) (us : List Uri),
        fetchLog env uri = some (.ok body, us) → env.openFails fn = false →
        env.writeFails fn = true →
        leafJob env fs uri fn = some (none, fn :: fs, us)) ∧
    (∀ (env : Env) (fs fs₂ : FS) (r : PdscRef) (uri : Uri) (url fn : String)
        (us : List Uri) (rest : List (Except Err PdscRef)),
        make_uri_fd_pair env fs r = .ok (some (uri, url, fn)) →
        leafJob env fs uri fn = some (none, fs₂, us) →
        run_download_pdscs env (.ok r :: rest) fs =
          (run_download_pdscs env rest fs₂).map (fun x => (x.1, x.2.1, us ++ x.2.2))) ∧
    (∀ (env : Env) (items : List (Except Err PdscRef)),
        items.all (itemClean env) = true →
        ∀ fs : FS, ∃ ps fs' us,
          run_download_pdscs env items fs = some (.ok ps, fs', us)) := by
  refine ⟨?_, ?_, ?_, ?_, ?_⟩
  · intro env fs uri fn e us h
    simp [leafJob, h]
  · intro env fs uri fn body us h ho
    simp [leafJob, h, ho]
  · intro env fs uri fn body us h ho hw
    simp [leafJob, h, ho, hw]
  · intro env fs fs₂ r uri url fn us rest hmk hjob
    exact run_download_pdscs_job_none rest hmk hjob
  · intro env items hclean fs
    exact run_download_pdscs_ok items hclean fs

/-- Witness for C6: the three failure kinds at concrete inputs (unreachable
host; failing open; failing write), the isolation equation for a concrete
failing leaf, and a concrete clean two-item stream (one fetch of which fails)
collecting without error. -/
theorem leaf_job_failures_isolated_witness :
    (leafJob envLeaf [] uriBad "store/W.M.2.pdsc" = some (none, [], [uriBad])) ∧
    (leafJob envOpenFail [] uriGood "store/V.N.1.pdsc" = some (none, [], [uriGood])) ∧
    (leafJob envWriteFail [] uriGood "store/V.N.1.pdsc" =
      some (none, "store/V.N.1.pdsc" :: [], [uriGood])) ∧
    (run_download_pdscs envLeaf (.ok refBad :: []) ["other"] =
      (run_download_pdscs envLeaf [] ["other"]).map
        (fun x => (x.1, x.2.1, [uriBad] ++ x.2.2))) ∧
    (∃ ps fs' us, run_download_pdscs envLeaf [.ok refGood, .ok refBad] [] =
      some (.ok ps, fs', us)) :=
  ⟨leaf_job_failures_isolated.1 envLeaf [] uriBad "store/W.M.2.pdsc"
      (.http ⟨"connection refused"⟩) [uriBad] (by decide),
    leaf_job_failures_isolated.2.1 envOpenFail [] uriGood "store/V.N.1.pdsc"
      "pdsc body" [uriGood] (by decide) rfl,
    leaf_job_failures_isolated.2.2.1 envWriteFail [] uriGood "store/V.N.1.pdsc"
      "pdsc body" [uriGood] (by decide) rfl rfl,
    leaf_job_failures_isolated.2.2.2.1 envLeaf ["other"] ["other"] refBad uriBad
      "http://bad.com" "store/W.M.2.pdsc" [uriBad] [] (by decide) (by decide),
    leaf_job_failures_isolated.2.2.2.2 envLeaf [.ok refGood, .ok refBad]
      (by decide) []⟩

/-- The collection never removes paths from the filesystem. -/
theorem run_download_pdscs_fs_mono {env : Env} :
    ∀ (items : List (Except Err PdscRef)) (fs : FS)
      {q : Except Err (List String)} {fs' : FS} {us : List Uri},
      run_download_pdscs env items fs = some (q, fs', us) →
      ∀ p, p ∈ fs → p ∈ fs' := by
  intro items
  induction items with
  | nil =>
    intro fs q fs' us h p hp
    simp only [run_download_pdscs, Option.some.injEq, Prod.mk.injEq] at h
    obtain ⟨-, h2, -⟩ := h
    rw [← h2]; exact hp
  | cons x items ih =>
    intro fs q fs' us h p hp
    cases x with
    | error e =>
      simp only [run_download_pdscs, Option.some.injEq, Prod.mk.injEq] at h
      obtain ⟨-, h2, -⟩ := h
      rw [← h2]; exact hp
    | ok r =>
      simp only [run_download_pdscs] at h
      cases hmk : make_uri_fd_pair env fs r with
      | error e =>
        simp only [hmk, Option.some.injEq, Prod.mk.injEq] at h
        obtain ⟨-, h2, -⟩ := h
        rw [← h2]; exact hp
      | ok o =>
        cases o with
        | none => simp only [hmk] at h; exact ih fs h p hp
        | some y =>
          obtain ⟨uri, url, fn⟩ := y
          simp only [hmk] at h
          cases hjob : leafJob env fs uri fn with
          | none => simp [hjob] at h
          | some z =>
            obtain ⟨res, fs₂, us₀⟩ := z
            simp only [hjob] at h
            have hp₂ : p ∈ fs₂ := by
              rcases leafJob_fs hjob with h' | h'
              · rw [h']; exact hp
              · rw [h']; exact List.mem_cons_of_mem _ hp
            cases hrun : run_download_pdscs env items fs₂ with
            | none => simp [hrun] at h
            | some w =>
              obtain ⟨q₂, fs₃, us₂⟩ := w
              simp only [hrun] at h
              cases q₂ with
              | error e =>
                simp only [Option.some.injEq, Prod.mk.injEq] at h
                obtain ⟨-, h2, -⟩ := h
                rw [← h2]; exact ih fs₂ hrun p hp₂
              | ok ps =>
                simp only [Option.some.injEq, Prod.mk.injEq] at h
                obtain ⟨-, h2, -⟩ := h
                rw [← h2]; exact ih fs₂ hrun p hp₂

/-- Every path in an error-free collection result was absent before the call
and exists afterwards (it was newly written by its leaf job). -/
theorem run_download_pdscs_new {env : Env} :
    ∀ (items : List (Except Err PdscRef)) (fs : FS) {ps : List String}
      {fs' : FS} {us : List Uri},
      run_download_pdscs env items fs = some (.ok ps, fs', us) →
      ∀ p ∈ ps, p ∉ fs ∧ p ∈ fs' := by
  intro items
  induction items with
  | nil =>
    intro fs ps fs' us h p hp
    simp only [run_download_pdscs, Option.some.injEq, Prod.mk.injEq,
      Except.ok.injEq] at h
    obtain ⟨h1, -, -⟩ := h
    rw [← h1] at hp
    exact absurd hp (List.not_mem_nil p)
  | cons x items ih =>
    intro fs ps fs' us h p hp
    cases x with
    | error e =>
      simp only [run_download_pdscs, Option.some.injEq, Prod.mk.injEq] at h
      exact Except.noConfusion h.1
    | ok r =>
      simp only [run_download_pdscs] at h
      cases hmk : make_uri_fd_pair env fs r with
      | error e => simp [hmk] at h
      | ok o =>
        cases o with
        | none => simp only [hmk] at h; exact ih fs h p hp
        | some y =>
          obtain ⟨uri, url, fn⟩ := y
          have hnotin := (make_uri_fd_pair_eq_some hmk).2.2.2
          simp only [hmk] at h
          cases hjob : leafJob env fs uri fn with
          | none => simp [hjob] at h
          | some z =>
            obtain ⟨res, fs₂, us₀⟩ := z
            simp only [hjob] at h
            cases hrun : run_download_pdscs env items fs₂ with
            | none => simp [hrun] at h
            | some w =>
              obtain ⟨q₂, fs₃, us₂⟩ := w
              simp only [hrun] at h
              cases q₂ with
              | error e => simp at h
              | ok ps₂ =>
                simp only [Option.some.injEq, Prod.mk.injEq, Except.ok.injEq] at h
                obtain ⟨h1, h2, -⟩ := h
                have hsub : ∀ a, a ∈ fs → a ∈ fs₂ := by
                  intro a ha
                  rcases leafJob_fs hjob with h' | h'
                  · rw [h']; exact ha
                  · rw [h']; exact List.mem_cons_of_mem _ ha
                cases res with
                | none =>
                  rw [← h1] at hp
                  obtain ⟨ha, hb⟩ := ih fs₂ hrun p hp
                  refine ⟨fun hmem => ha (hsub p hmem), ?_⟩
                  rw [← h2]; exact hb
                | some p₀ =>
                  obtain ⟨hq, hfs₂⟩ := leafJob_res hjob
                  rw [← h1] at hp
                  rcases List.mem_cons.1 hp with hhead | htail
                  · rw [hhead]
                    refine ⟨by rw [hq]; exact hnotin, ?_⟩
                    rw [← h2]
                    refine run_download_pdscs_fs_mono items fs₂ hrun p₀ ?_
                    rw [hfs₂, hq]
                    exact List.mem_cons_self _ _
                  · obtain ⟨ha, hb⟩ := ih fs₂ hrun p htail
                    refine ⟨fun hmem => ha (hsub p hmem), ?_⟩
                    rw [← h2]; exact hb

/-- A ref whose destination path is already present is classified `Skip` by
`make_uri_fd_pair`, filtered out before any job is enqueued: the collection
(results, filesystem and request log alike) proceeds exactly as if the ref
were absent. -/
theorem run_download_pdscs_skip {env : Env} {r : PdscRef} {uri : Uri} {fn : String}
    (hp : Uri.parse (leafUrlString r.url r.vendor r.name) = .ok uri)
    (hf : env.place_data_file (pdscFilename r.vendor r.name r.version) = .ok fn)
    (l₂ : List (Except Err PdscRef)) :
    ∀ (l₁ : List (Except Err PdscRef)) (fs : FS), fn ∈ fs →
      run_download_pdscs env (l₁ ++ .ok r :: l₂) fs =
        run_download_pdscs env (l₁ ++ l₂) fs := by
  intro l₁
  induction l₁ with
  | nil =>
    intro fs hmem
    simp only [List.nil_append, run_download_pdscs, make_uri_fd_pair, hp, hf]
    simp [hmem]
  | cons x l₁ ih =>
    intro fs hmem
    cases x with
    | error e => simp only [List.cons_append, run_download_pdscs]
    | ok r' =>
      cases hmk : make_uri_fd_pair env fs r' with
      | error e => simp only [List.cons_append, run_download_pdscs, hmk]
      | ok o =>
        cases o with
        | none =>
          simp only [List.cons_append, run_download_pdscs, hmk]
          exact ih fs hmem
        | some y =>
          obtain ⟨uri', url', fn'⟩ := y
          cases hjob : leafJob env fs uri' fn' with
          | none => simp only [List.cons_append, run_download_pdscs, hmk, hjob]
          | some z =>
            obtain ⟨res, fs₂, us₀⟩ := z
            have hmem₂ : fn ∈ fs₂ := by
              rcases leafJob_fs hjob with h' | h'
              · rw [h']; exact hmem
              · rw [h']; exact List.mem_cons_of_mem _ hmem
            simp only [List.cons_append, run_download_pdscs, List.append_eq, hmk, hjob]
            rw [ih fs₂ hmem₂]

/-- C4: a leaf ref whose destination path already exists before the call is
skipped — the collection (its results, filesystem effects and its request log
alike) is the one of the stream without that ref, so no leaf GET is issued
for it and its path cannot enter the result; and conversely every path in an
error-free `update` result was newly written during the invocation (absent
before the call, present after it). -/
theorem update_skips_existing_and_returns_only_new :
    (∀ (env : Env) (r : PdscRef) (uri : Uri) (fn : String)
        (l₁ l₂ : List (Except Err PdscRef)) (fs : FS),
        Uri.parse (leafUrlString r.url r.vendor r.name) = .ok uri →
        env.place_data_file (pdscFilename r.vendor r.name r.version) = .ok fn →
        fn ∈ fs →
        run_download_pdscs env (l₁ ++ .ok r :: l₂) fs =
          run_download_pdscs env (l₁ ++ l₂) fs) ∧
    (∀ (env : Env) (seeds : List String) (fs : FS) (ps : List String)
        (fs' : FS) (us : List Uri),
        update_inner env seeds fs = some (.ok ps, fs', us) →
        ∀ p ∈ ps, p ∉ fs ∧ p ∈ fs') := by
  constructor
  · intro env r uri fn l₁ l₂ fs hp hf hmem
    exact run_download_pdscs_skip hp hf l₂ l₁ fs hmem
  · intro env seeds fs ps fs' us h p hp
    unfold update_inner at h
    cases hdv : download_vidx_list env seeds with
    | none => simp only [hdv] at h; exact Option.noConfusion h
    | some vidxs =>
      simp only [hdv] at h
      cases hps : pdsc_stream env vidxs with
      | none => simp only [hps] at h; exact Option.noConfusion h
      | some pdscs =>
        simp only [hps] at h
        exact run_download_pdscs_new pdscs fs h p hp

/-- Witness for C4: with `refGood`'s destination already on disk the
collection equals the one of the empty stream (no request, no result), and in
the end-to-end success scenario the single returned path was absent before
the call and exists afterwards. -/
theorem update_skips_existing_and_returns_only_new_witness :
    (run_download_pdscs envLeaf ([] ++ .ok refGood :: []) ["store/V.N.1.pdsc"] =
      run_download_pdscs envLeaf ([] ++ []) ["store/V.N.1.pdsc"]) ∧
    ("store/V.N.1.pdsc" ∉ ([] : FS) ∧ "store/V.N.1.pdsc" ∈ ["store/V.N.1.pdsc"]) :=
  ⟨update_skips_existing_and_returns_only_new.1 envLeaf refGood uriGood
      "store/V.N.1.pdsc" [] [] ["store/V.N.1.pdsc"] (by decide) rfl (by decide),
    update_skips_existing_and_returns_only_new.2 envU ["http://seed.com/idx"] []
      ["store/V.N.1.pdsc"] ["store/V.N.1.pdsc"] [uriGood] (by decide)
      "store/V.N.1.pdsc" (by decide)⟩

/-- C9: the leaf artifact source URL is the base URL, a `/` separator exactly
when the base lacks a trailing one, then `vendor.name.pdsc`; and the URI that
`make_uri_fd_pair` fetches displays as exactly that string. -/
theorem leaf_url_separator :
    (∀ u v n : String, endsWithSlash u = false →
        leafUrlString u v n = u ++ "/" ++ v ++ "." ++ n ++ ".pdsc") ∧
    (∀ u v n : String, endsWithSlash u = true →
        leafUrlString u v n = u ++ v ++ "." ++ n ++ ".pdsc") ∧
    (∀ (env : Env) (fs : FS) (r : PdscRef) (uri : Uri) (url fn : String),
        make_uri_fd_pair env fs r = .ok (some (uri, url, fn)) →
        uri.raw = leafUrlString r.url r.vendor r.name) := by
  refine ⟨?_, ?_, ?_⟩
  · intro u v n h; simp [leafUrlString, h]
  · intro u v n h; simp [leafUrlString, h]
  · intro env fs r uri url fn h
    exact (make_uri_fd_pair_eq_some h).1

/-- Witness for C9: both separator cases at concrete strings, and the URI
fetched for `refGood` (whose base URL has no trailing slash). -/
theorem leaf_url_separator_witness :
    (leafUrlString "http://x" "V" "N" = "http://x" ++ "/" ++ "V" ++ "." ++ "N" ++ ".pdsc") ∧
    (leafUrlString "http://x/" "V" "N" = "http://x/" ++ "V" ++ "." ++ "N" ++ ".pdsc") ∧
    (uriGood.raw = leafUrlString refGood.url refGood.vendor refGood.name) :=
  ⟨leaf_url_separator.1 "http://x" "V" "N" (by decide),
    leaf_url_separator.2.1 "http://x/" "V" "N" (by decide),
    leaf_url_separator.2.2 envLeaf [] refGood uriGood "http://good.com"
      "store/V.N.1.pdsc" (by decide)⟩

/-- Counterexample to C5: destination paths are not injective over all string
values of the identity triple — the distinct triples `("a.b", "c", "1")` and
`("a", "b.c", "1")` produce the same filename `a.b.c.1.pdsc` and hence the
same destination path, whatever their source URLs. -/
theorem dest_path_collision :
    destPath "store" ⟨"http://u1/", "a.b", "c", "1"⟩ =
      destPath "store" ⟨"http://u2/", "a", "b.c", "1"⟩ ∧
    (("a.b", "c", "1") : String × String × String) ≠ ("a", "b.c", "1") :=
  ⟨rfl, by decide⟩

/-- Splitting a character list at a separator absent from both prefixes is
unambiguous. -/
theorem append_dot_inj {a₁ a₂ b₁ b₂ : List Char}
    (h₁ : '.' ∉ a₁) (h₂ : '.' ∉ a₂)
    (h : a₁ ++ '.' :: b₁ = a₂ ++ '.' :: b₂) : a₁ = a₂ ∧ b₁ = b₂ := by
  induction a₁ generalizing a₂ with
  | nil =>
    cases a₂ with
    | nil => simpa using h
    | cons c t =>
      simp only [List.nil_append, List.cons_append, List.cons.injEq] at h
      obtain ⟨hc, -⟩ := h
      exact absurd (show '.' ∈ c :: t by rw [← hc]; exact List.mem_cons_self _ _) h₂
  | cons c t ih =>
    cases a₂ with
    | nil =>
      simp only [List.cons_append, List.nil_append, List.cons.injEq] at h
      obtain ⟨hc, -⟩ := h
      exact absurd (show '.' ∈ c :: t by rw [hc]; exact List.mem_cons_self _ _) h₁
    | cons c₂ t₂ =>
      simp only [List.cons_append, List.cons.injEq] at h
      obtain ⟨hc, hrest⟩ := h
      have h₁' : '.' ∉ t := fun hm => h₁ (List.mem_cons_of_mem _ hm)
      have h₂' : '.' ∉ t₂ := fun hm => h₂ (List.mem_cons_of_mem _ hm)
      obtain ⟨ht, hb⟩ := ih h₁' h₂' hrest
      exact ⟨by rw [hc, ht], hb⟩

/-- The characters of the destination filename, split at its separators. -/
theorem pdscFilename_data (v n w : String) :
    (pdscFilename v n w).data =
      v.data ++ '.' :: (n.data ++ '.' :: (w.data ++ ".pdsc".data)) := by
  simp only [pdscFilename, String.data_append, List.append_assoc]
  rfl

/-- C5 (amended): the destination path is a pure function of the identity
triple (two refs agreeing on vendor, name and version map to the same path
whatever their source URLs), and the mapping is injective whenever vendor and
name contain no `.`; for arbitrary strings injectivity fails (see the
collision counterexample), since the triple is joined with `.` separators. -/
theorem dest_path_pure_and_dotfree_injective :
    (∀ (store : String) (r₁ r₂ : PdscRef),
        r₁.vendor = r₂.vendor → r₁.name = r₂.name → r₁.version = r₂.version →
        destPath store r₁ = destPath store r₂) ∧
    (∀ (store u₁ v₁ n₁ w₁ u₂ v₂ n₂ w₂ : String),
        '.' ∉ v₁.data → '.' ∉ v₂.data → '.' ∉ n₁.data → '.' ∉ n₂.data →
        destPath store ⟨u₁, v₁, n₁, w₁⟩ = destPath store ⟨u₂, v₂, n₂, w₂⟩ →
        v₁ = v₂ ∧ n₁ = n₂ ∧ w₁ = w₂) := by
  constructor
  · intro store r₁ r₂ hv hn hw
    unfold destPath pdscFilename
    rw [hv, hn, hw]
  · intro store u₁ v₁ n₁ w₁ u₂ v₂ n₂ w₂ hv₁ hv₂ hn₁ hn₂ h
    unfold destPath place_data_file_spec at h
    have hd : (pdscFilename v₁ n₁ w₁).data = (pdscFilename v₂ n₂ w₂).data := by
      have hds := congrArg String.data h
      simp only [String.data_append, List.append_assoc] at hds
      exact List.append_cancel_left (List.append_cancel_left hds)
    rw [pdscFilename_data, pdscFilename_data] at hd
    obtain ⟨hveq, hd₂⟩ := append_dot_inj hv₁ hv₂ hd
    obtain ⟨hneq, hd₃⟩ := append_dot_inj hn₁ hn₂ hd₂
    have hweq := List.append_cancel_right hd₃
    exact ⟨String.ext hveq, String.ext hneq, String.ext hweq⟩

/-- Witness for the amended C5: two refs with the same (dot-free) triple and
different URLs share a path; and equality of paths at dot-free vendor and
name forces equality of the triples. -/
theorem dest_path_pure_and_dotfree_injective_witness :
    (destPath "store" ⟨"http://u1/", "V", "N", "2"⟩ =
      destPath "store" ⟨"http://u2/", "V", "N", "2"⟩) ∧
    ("V" = ("V" : String) ∧ "N" = ("N" : String) ∧ "1.0" = ("1.0" : String)) :=
  ⟨dest_path_pure_and_dotfree_injective.1 "store"
      ⟨"http://u1/", "V", "N", "2"⟩ ⟨"http://u2/", "V", "N", "2"⟩ rfl rfl rfl,
    dest_path_pure_and_dotfree_injective.2 "store" "u1" "V" "N" "1.0"
      "u2" "V" "N" "1.0" (by decide) (by decide) (by decide) (by decide) rfl⟩

/-- The refill phase never exceeds the bound. -/
theorem fillAux_length {lim : Nat} :
    ∀ (p f : List Nat), f.length ≤ lim → (fillAux lim p f).2.length ≤ lim := by
  intro p
  induction p with
  | nil => exact fun f h => h
  | cons j rest ih =>
    intro f h
    simp only [fillAux]
    by_cases hlt : f.length < lim
    · simp only [hlt, if_true]
      exact ih (f ++ [j]) (by simp only [List.length_append, List.length_singleton]; omega)
    · simp only [hlt, if_false]
      exact h

/-- C8: the leaf-download stage `buffer_unordered(32)` never has more than 32
jobs in flight: however many polls are performed and however long the pending
list, the in-flight list of the executor model stays within the bound passed
by `download_pdscs`. -/
theorem download_stage_bounded (k : Nat) (pending : List Nat) :
    (bufRun download_concurrency k ⟨pending, [], 0⟩).inFlight.length ≤
      download_concurrency := by
  have hstep : ∀ s : BufState, s.inFlight.length ≤ download_concurrency →
      (bufStep download_concurrency s).inFlight.length ≤ download_concurrency := by
    intro s hs
    have h1 := @fillAux_length download_concurrency s.pending s.inFlight hs
    calc ((fillAux download_concurrency s.pending s.inFlight).2.filterMap
            (fun k => if k == 0 then none else some (k - 1))).length
        ≤ (fillAux download_concurrency s.pending s.inFlight).2.length :=
          List.length_filterMap_le _ _
      _ ≤ download_concurrency := h1
  have hrun : ∀ (m : Nat) (s : BufState), s.inFlight.length ≤ download_concurrency →
      (bufRun download_concurrency m s).inFlight.length ≤ download_concurrency := by
    intro m
    induction m with
    | zero => exact fun s h => h
    | succ m ih => exact fun s h => ih _ (hstep s h)
  exact hrun k ⟨pending, [], 0⟩ (by simp [download_concurrency])

end Network
